import Mathlib

/- Verification of the Siril sequence writer (src/io/seqwriter.c).

   The writer receives image-writing requests (tasks) from producer threads on
   an asynchronous queue, reorders them with a waiting list (next_images), and
   writes them in strictly ascending index order through the write_image_hook.
   We embed the single consumer thread write_worker as a fuel-indexed function
   over the list of messages popped from the queue, in pop order.  Blocking on
   an empty queue (and fuel exhaustion) is modelled by the value none.  Calls
   the worker makes to its collaborators (write_image_hook, clearfits,
   notify_data_freed) are recorded in an event trace.

   The process-wide memory throttle and multi-output synchronizer at the bottom
   of seqwriter.c (nb_blocks_active, outputs, notify_data_freed,
   all_outputs_to_index, get_output_for_seq, seqwriter_set_max_active_blocks)
   are embedded as pure functions on an explicit PoolState. -/

namespace Seqwriter

/- seq_error from seqwriter.c: SEQ_OK = 0, SEQ_WRITE_ERROR, SEQ_INCOMPLETE. -/
inductive SeqError where
  | ok
  | writeError
  | incomplete
  deriving DecidableEq, Repr

/- The writer's output container type (seqwriter.h is not part of the sources;
   only SEQ_SER and SEQ_FITSEQ are distinguished by write_worker's checks). -/
inductive SeqOutputType where
  | ser
  | fitseq
  deriving DecidableEq, Repr

/- The fields of a fits image that write_worker reads: bitpix, naxes[0..2]
   (naxes[2] is the channel count), and rx/ry (used only for logging). -/
structure Fits where
  bitpix : Int
  naxes0 : Nat
  naxes1 : Nat
  naxes2 : Nat
  rx : Nat
  ry : Nat
  deriving DecidableEq, Repr

/- struct seqwriter_data, restricted to the fields write_worker uses.
   allowHeterogeneousFitseq models the global com.pref.allow_heterogeneous_fitseq
   switch, and writeImageHook the writer's write_image_hook function pointer
   (it receives the image and nb_frames_written and returns a status). -/
structure Writer where
  outputType : SeqOutputType
  allowHeterogeneousFitseq : Bool
  writeImageHook : Fits → Nat → SeqError
  bitpix : Int
  naxes0 : Nat
  naxes1 : Nat
  naxes2 : Nat
  frameCount : Int

/- struct _pending_write: an image buffer (NULL marks a deliberate hole) plus
   its target index. -/
structure PendingWrite where
  image : Option Fits
  index : Int
  deriving DecidableEq, Repr

/- One message popped from writes_queue: either the distinguished ABORT_TASK
   sentinel or a real pending-write task. -/
inductive QueueMsg where
  | abortTask
  | task (t : PendingWrite)
  deriving DecidableEq, Repr

/- Observable calls the worker makes while consuming tasks:
   an encode-hook invocation (with the task index, the image, the
   nb_frames_written argument and the returned status), a clearfits call
   freeing the image buffer, and a notify_data_freed call releasing the
   task's memory reservation. -/
inductive Event where
  | hookCall (index : Int) (image : Fits) (nbWritten : Nat) (result : SeqError)
  | clearfits (index : Int)
  | notifyFreed (index : Int)
  deriving DecidableEq, Repr

/- The terminal state of one write_worker run: the returned status, the final
   nb_frames_written, the final writer->frame_count, the waiting list left at
   exit, and the trace of events emitted during the run. -/
structure Outcome where
  retval : SeqError
  nbWritten : Nat
  frameCount : Int
  pendingLeft : List PendingWrite
  trace : List Event
  deriving DecidableEq, Repr

/- init_images: capture the first image's bitpix and naxes in the writer. -/
def init_images (w : Writer) (f : Fits) : Writer :=
  { w with bitpix := f.bitpix, naxes0 := f.naxes0, naxes1 := f.naxes1,
           naxes2 := f.naxes2 }

/- The metadata check of write_worker (seqwriter.c lines 110-114): an image is
   rejected when metadata is already established (writer->bitpix nonzero) and
   the image is present and either its naxes[0..1] differ while the output is
   a SER or a FITSEQ without the heterogeneous relaxation, or its naxes[2] or
   bitpix differ. -/
def metadataMismatch (w : Writer) : Option Fits → Bool
  | none => false
  | some f =>
    w.bitpix != 0 &&
      (((w.outputType == SeqOutputType.fitseq) && !w.allowHeterogeneousFitseq &&
          (f.naxes0 != w.naxes0 || f.naxes1 != w.naxes1)) ||
       ((w.outputType == SeqOutputType.ser) &&
          (f.naxes0 != w.naxes0 || f.naxes1 != w.naxes1)) ||
       f.naxes2 != w.naxes2 ||
       f.bitpix != w.bitpix)

/- The scan of the waiting list (next_images) at the top of the worker loop:
   remove and return the first stored task whose index is the cursor. -/
def findPending (ci : Int) : List PendingWrite → Option (PendingWrite × List PendingWrite)
  | [] => none
  | t :: rest =>
    if t.index = ci then some (t, rest)
    else
      match findPending ci rest with
      | none => none
      | some (t', rest') => some (t', t :: rest')

/- The writer-metadata update performed while popping a task (init_images on
   the first image seen, seqwriter.c lines 119-120). -/
def popInit (w : Writer) : Option Fits → Writer
  | some f => if w.bitpix = 0 then init_images w f else w
  | none => w

/- Result of the inner pop loop of write_worker: the queue is empty and the
   worker blocks forever; the ABORT_TASK was popped; a popped task failed the
   metadata check or arrived below the cursor (retval = SEQ_WRITE_ERROR); or a
   consumable task (index equal to the cursor, or negative) was obtained,
   possibly after storing earlier pops in the waiting list. -/
inductive PopResult where
  | blocked
  | aborted (queue : List QueueMsg) (pending : List PendingWrite) (w : Writer)
  | errored (image : Option Fits) (index : Int) (queue : List QueueMsg)
      (pending : List PendingWrite) (w : Writer)
  | got (t : PendingWrite) (queue : List QueueMsg) (pending : List PendingWrite)
      (w : Writer)

/- The inner pop loop (seqwriter.c lines 95-133): pop messages until the abort
   sentinel, an erroneous task, or a consumable task is found; tasks with an
   index ahead of the cursor are appended to the waiting list.  The metadata of
   the first image seen is captured by init_images before the index checks. -/
def popLoop (w : Writer) (ci : Int) (pending : List PendingWrite) :
    List QueueMsg → PopResult
  | [] => PopResult.blocked
  | QueueMsg.abortTask :: rest => PopResult.aborted rest pending w
  | QueueMsg.task t :: rest =>
    if metadataMismatch w t.image then
      PopResult.errored t.image t.index rest pending w
    else
      if t.index ≥ 0 ∧ t.index ≠ ci then
        if t.index < ci then
          PopResult.errored t.image t.index rest pending (popInit w t.image)
        else popLoop (popInit w t.image) ci (pending ++ [t]) rest
      else PopResult.got t rest pending (popInit w t.image)

/- The events emitted on the error exit path (seqwriter.c lines 139-146):
   clearfits on the buffer when present, then notify_data_freed. -/
def errorConsumeEvents : Option Fits → Int → List Event
  | none, idx => [Event.notifyFreed idx]
  | some _, idx => [Event.clearfits idx, Event.notifyFreed idx]

/- Result of one iteration of the outer do-while loop: the worker blocked, the
   loop broke out (abort or error path) with a terminal retval, or the body ran
   to its end and the loop condition is to be evaluated next. -/
inductive StepResult where
  | blocked
  | done (retval : SeqError) (w : Writer) (pending : List PendingWrite)
      (nw : Nat) (events : List Event)
  | ran (retval : SeqError) (w : Writer) (queue : List QueueMsg)
      (pending : List PendingWrite) (ci : Int) (nw : Nat) (events : List Event)

/- Consumption of a task whose turn has come (seqwriter.c lines 147-171).
   A hole releases the reservation, advances the cursor and decrements the
   expected count; an image is passed to the hook with nb_frames_written, the
   buffer is freed, and on a non-error status the reservation is released and
   both counters advance.  On SEQ_WRITE_ERROR from the hook the reservation is
   not released and the loop condition will stop the worker. -/
def consume (w : Writer) (t : PendingWrite) (queue : List QueueMsg)
    (pending : List PendingWrite) (ci : Int) (nw : Nat) : StepResult :=
  match t.image with
  | none =>
    StepResult.ran SeqError.ok { w with frameCount := w.frameCount - 1 }
      queue pending (ci + 1) nw [Event.notifyFreed t.index]
  | some f =>
    if w.writeImageHook f nw ≠ SeqError.writeError then
      StepResult.ran (w.writeImageHook f nw) w queue pending (ci + 1) (nw + 1)
        [Event.hookCall t.index f nw (w.writeImageHook f nw),
         Event.clearfits t.index, Event.notifyFreed t.index]
    else
      StepResult.ran (w.writeImageHook f nw) w queue pending ci nw
        [Event.hookCall t.index f nw (w.writeImageHook f nw),
         Event.clearfits t.index]

/- One iteration of the outer loop: take the task from the waiting list when
   its index is the cursor, otherwise run the pop loop; abort and error breaks
   are terminal. -/
def step (w : Writer) (queue : List QueueMsg) (pending : List PendingWrite)
    (ci : Int) (nw : Nat) : StepResult :=
  match findPending ci pending with
  | some (t, pending') => consume w t queue pending' ci nw
  | none =>
    match popLoop w ci pending queue with
    | PopResult.blocked => StepResult.blocked
    | PopResult.aborted _ pending' w' =>
      StepResult.done SeqError.incomplete w' pending' nw []
    | PopResult.errored img idx _ pending' w' =>
      StepResult.done SeqError.writeError w' pending' nw
        (errorConsumeEvents img idx)
    | PopResult.got t queue' pending' w' => consume w' t queue' pending' ci nw

/- The post-loop fixup (seqwriter.c lines 175-189): an SEQ_INCOMPLETE exit
   with a non-empty waiting list keeps SEQ_INCOMPLETE (setting frame_count to
   nb_frames_written when it was unknown); with an empty waiting list and an
   unknown frame_count the actual count becomes final and the status is
   SEQ_OK. -/
def finalize (retval : SeqError) (frameCount : Int)
    (pending : List PendingWrite) (nw : Nat) (trace : List Event) : Outcome :=
  if retval = SeqError.incomplete then
    match pending with
    | _ :: _ =>
      Outcome.mk SeqError.incomplete nw
        (if frameCount ≤ 0 then (nw : Int) else frameCount) pending trace
    | [] =>
      if frameCount ≤ 0 then Outcome.mk SeqError.ok nw (nw : Int) pending trace
      else Outcome.mk SeqError.incomplete nw frameCount pending trace
  else Outcome.mk retval nw frameCount pending trace

/- Prefix the trace of a (possibly blocked) run with earlier events. -/
def prependTrace (ev : List Event) : Option Outcome → Option Outcome
  | none => none
  | some o => some { o with trace := ev ++ o.trace }

/- The worker loop itself.  The do-while condition (retval == SEQ_OK &&
   (frame_count <= 0 || nb_frames_written < frame_count)) is evaluated after
   each completed iteration; fuel bounds the number of iterations and none
   models blocking (or fuel exhaustion). -/
def write_worker : Nat → Writer → List QueueMsg → List PendingWrite → Int →
    Nat → Option Outcome
  | 0, _, _, _, _, _ => none
  | fuel + 1, w, queue, pending, ci, nw =>
    match step w queue pending ci nw with
    | StepResult.blocked => none
    | StepResult.done retval w' pending' nw' ev =>
      some (finalize retval w'.frameCount pending' nw' ev)
    | StepResult.ran retval w' queue' pending' ci' nw' ev =>
      if retval = SeqError.ok ∧ (w'.frameCount ≤ 0 ∨ (nw' : Int) < w'.frameCount)
      then prependTrace ev (write_worker fuel w' queue' pending' ci' nw')
      else some (finalize retval w'.frameCount pending' nw' ev)

/- start_writer resets the writer's metadata and failure state and records the
   expected frame count (nonpositive means unknown). -/
def start_writer (w : Writer) (frameCount : Int) : Writer :=
  { w with bitpix := 0, naxes0 := 0, frameCount := frameCount }

/- The indices at which the encode hook was invoked, in trace order. -/
def hookIndices (tr : List Event) : List Int :=
  tr.filterMap fun e =>
    match e with
    | Event.hookCall idx _ _ _ => some idx
    | _ => none

/- Whether every task in the queue carries a nonnegative index. -/
def allIndicesNonneg (queue : List QueueMsg) : Bool :=
  queue.all fun m =>
    match m with
    | QueueMsg.abortTask => true
    | QueueMsg.task t => decide (0 ≤ t.index)

/- The status and frames-written of a finished run. -/
def resultStatus (r : Option Outcome) : Option (SeqError × Nat) :=
  r.map fun o => (o.retval, o.nbWritten)

/- Indices of the waiting-list entries. -/
def pIdx (P : List PendingWrite) : List Int :=
  P.map PendingWrite.index

/- Indices of the real tasks in a queue fragment. -/
def qIdx (Q : List QueueMsg) : List Int :=
  Q.filterMap fun m =>
    match m with
    | QueueMsg.abortTask => none
    | QueueMsg.task t => some t.index

/- The consecutive integers c, c+1, ..., c+len-1. -/
def intsFrom : Nat → Nat → List Int
  | _, 0 => []
  | c, len + 1 => (c : Int) :: intsFrom (c + 1) len

/- The submission of one task per image, at consecutive indices from start. -/
def submissionList : List Fits → Nat → List QueueMsg
  | [], _ => []
  | f :: rest, start =>
    QueueMsg.task ⟨some f, (start : Int)⟩ :: submissionList rest (start + 1)

/- Two images agreeing on all the metadata write_worker checks. -/
def sameMeta (f g : Fits) : Prop :=
  f.bitpix = g.bitpix ∧ f.naxes0 = g.naxes0 ∧ f.naxes1 = g.naxes1 ∧
    f.naxes2 = g.naxes2

instance : DecidablePred fun p : Fits × Fits => sameMeta p.1 p.2 :=
  fun _ => by unfold sameMeta; infer_instance

instance (f g : Fits) : Decidable (sameMeta f g) := by
  unfold sameMeta; infer_instance

/- The writer's metadata state is compatible with images of metadata m: either
   not yet established, or established equal to m's. -/
def compat (m : Fits) (w : Writer) : Prop :=
  w.bitpix = 0 ∨
    (w.bitpix = m.bitpix ∧ w.naxes0 = m.naxes0 ∧ w.naxes1 = m.naxes1 ∧
      w.naxes2 = m.naxes2)

/- A queue message that is a real task with a present image of metadata m. -/
def taskOk (m : Fits) (msg : QueueMsg) : Prop :=
  ∃ f idx, msg = QueueMsg.task ⟨some f, idx⟩ ∧ sameMeta f m

/- ----- the process-wide memory pool and multi-output synchronizer ----- -/

/- struct _outputs_struct: the sequence identity (NULL when the slot is free)
   and the last index this output reported.  Sequence identities (void *seq)
   are modelled as natural numbers. -/
structure OutputSlot where
  seq : Option Nat
  index : Int
  deriving DecidableEq, Repr

/- The process-wide state: nb_blocks_active, configured_max_active_blocks,
   nb_outputs and the outputs registry (a list standing for the array of
   nb_outputs slots). -/
structure PoolState where
  nbBlocksActive : Int
  configuredMaxActiveBlocks : Int
  nbOutputs : Int
  outputs : List OutputSlot
  deriving DecidableEq, Repr

/- get_output_for_seq: find the slot of a sequence, registering it in the
   first free slot (with index -1) on first sight; returns the slot position
   (none models the C function's -1 "not found" result) and the possibly
   updated registry. -/
def get_output_for_seq (s : Nat) : List OutputSlot → Option Nat × List OutputSlot
  | [] => (none, [])
  | slot :: rest =>
    if slot.seq = none then (some 0, ⟨some s, -1⟩ :: rest)
    else if slot.seq = some s then (some 0, slot :: rest)
    else
      match get_output_for_seq s rest with
      | (none, rest') => (none, slot :: rest')
      | (some i, rest') => (some (i + 1), slot :: rest')

/- all_outputs_to_index: every slot is registered and has reported at least
   the given index. -/
def all_outputs_to_index (outs : List OutputSlot) (index : Int) : Bool :=
  outs.all fun o => o.seq.isSome && decide (index ≤ o.index)

/- seqwriter_release_memory: decrement the active count (and signal one
   waiter). -/
def seqwriter_release_memory (pool : PoolState) : PoolState :=
  { pool with nbBlocksActive := pool.nbBlocksActive - 1 }

/- notify_data_freed on the pool state: with several outputs, record the index
   for this output's slot and release a memory slot only when all outputs have
   reached the index; with a single output, release unconditionally.  (When
   get_output_for_seq finds no slot the C code indexes outputs[-1], which is
   undefined; the model leaves the counter unchanged in that unreachable
   case.) -/
def notify_data_freed (pool : PoolState) (s : Nat) (index : Int) : PoolState :=
  if 1 < pool.nbOutputs then
    match get_output_for_seq s pool.outputs with
    | (some i, outs) =>
      let outs' := outs.set i ⟨some s, index⟩
      if all_outputs_to_index outs' index then
        { pool with outputs := outs', nbBlocksActive := pool.nbBlocksActive - 1 }
      else { pool with outputs := outs' }
    | (none, outs) => { pool with outputs := outs }
  else { pool with nbBlocksActive := pool.nbBlocksActive - 1 }

/- seqwriter_set_max_active_blocks: when raising a positive ceiling, call
   seqwriter_release_memory once per unit of the increase (the returned Nat
   counts these release calls); then store the ceiling and zero the active
   count. -/
def seqwriter_set_max_active_blocks (pool : PoolState) (maxBlocks : Int) :
    PoolState × Nat :=
  let more :=
    if 0 < pool.configuredMaxActiveBlocks ∧
        pool.configuredMaxActiveBlocks < maxBlocks then
      (maxBlocks - pool.configuredMaxActiveBlocks).toNat
    else 0
  ({ pool with configuredMaxActiveBlocks := maxBlocks, nbBlocksActive := 0 },
   more)

/- The events of one loop-iteration result. -/
def StepResult.events : StepResult → List Event
  | StepResult.blocked => []
  | StepResult.done _ _ _ _ ev => ev
  | StepResult.ran _ _ _ _ _ _ ev => ev

/- ----- concrete fixtures used by witnesses and counterexamples ----- -/

def fA : Fits := ⟨16, 100, 80, 1, 100, 80⟩

def fB : Fits := ⟨16, 100, 80, 1, 50, 40⟩

def fBad : Fits := ⟨16, 99, 80, 1, 99, 80⟩

def hookOk : Fits → Nat → SeqError := fun _ _ => SeqError.ok

def hookFail : Fits → Nat → SeqError := fun _ _ => SeqError.writeError

def wBase : Writer := ⟨SeqOutputType.fitseq, false, hookOk, 0, 0, 0, 0, 2⟩

def wEst : Writer := ⟨SeqOutputType.ser, false, hookOk, 16, 100, 80, 1, 5⟩

def wFail : Writer := ⟨SeqOutputType.fitseq, false, hookFail, 0, 0, 0, 0, 1⟩

def wUnknown : Writer := ⟨SeqOutputType.fitseq, false, hookOk, 0, 0, 0, 0, 0⟩

def poolA : PoolState := ⟨10, 0, 2, [⟨some 1, 4⟩, ⟨some 2, 3⟩]⟩

def poolB : PoolState := ⟨10, 0, 2, [⟨some 1, 5⟩, ⟨some 2, 3⟩]⟩

def poolC : PoolState := ⟨3, 4, 1, []⟩

/- ----- helper lemmas ----- -/

theorem popInit_frameCount (w : Writer) (img : Option Fits) :
    (popInit w img).frameCount = w.frameCount := by
  cases img with
  | none => rfl
  | some f =>
    show (if w.bitpix = 0 then init_images w f else w).frameCount = w.frameCount
    split <;> rfl

theorem popInit_hook (w : Writer) (img : Option Fits) :
    (popInit w img).writeImageHook = w.writeImageHook := by
  cases img with
  | none => rfl
  | some f =>
    show (if w.bitpix = 0 then init_images w f else w).writeImageHook =
      w.writeImageHook
    split <;> rfl

theorem finalize_trace (r : SeqError) (fc : Int) (P : List PendingWrite)
    (nw : Nat) (tr : List Event) : (finalize r fc P nw tr).trace = tr := by
  unfold finalize
  split
  · cases P with
    | nil =>
      simp only []
      split <;> rfl
    | cons t rest => rfl
  · rfl

theorem finalize_of_ne_incomplete (r : SeqError) (fc : Int)
    (P : List PendingWrite) (nw : Nat) (tr : List Event)
    (h : r ≠ SeqError.incomplete) :
    finalize r fc P nw tr = Outcome.mk r nw fc P tr := by
  unfold finalize
  rw [if_neg h]

theorem resultStatus_prependTrace (ev : List Event) (r : Option Outcome) :
    resultStatus (prependTrace ev r) = resultStatus r := by
  cases r <;> rfl

theorem prependTrace_eq_some (ev : List Event) (r : Option Outcome)
    (out : Outcome) (h : prependTrace ev r = some out) :
    ∃ o, r = some o ∧
      out = Outcome.mk o.retval o.nbWritten o.frameCount o.pendingLeft
        (ev ++ o.trace) := by
  cases r with
  | none => exact absurd h (by simp [prependTrace])
  | some o =>
    refine ⟨o, rfl, ?_⟩
    simp only [prependTrace, Option.some_inj] at h
    exact h.symm

theorem hookIndices_append (a b : List Event) :
    hookIndices (a ++ b) = hookIndices a ++ hookIndices b := by
  unfold hookIndices
  exact List.filterMap_append a b _

theorem hookIndices_errorConsume (img : Option Fits) (idx : Int) :
    hookIndices (errorConsumeEvents img idx) = [] := by
  cases img <;> simp [errorConsumeEvents, hookIndices]

theorem metadataMismatch_true (w : Writer) (f : Fits)
    (hbp : w.bitpix ≠ 0)
    (hstrict : w.outputType = SeqOutputType.ser ∨
      (w.outputType = SeqOutputType.fitseq ∧ w.allowHeterogeneousFitseq = false))
    (hdiff : f.naxes0 ≠ w.naxes0 ∨ f.naxes1 ≠ w.naxes1 ∨
      f.naxes2 ≠ w.naxes2 ∨ f.bitpix ≠ w.bitpix) :
    metadataMismatch w (some f) = true := by
  simp only [metadataMismatch, Bool.and_eq_true, Bool.or_eq_true, bne_iff_ne,
    ne_eq, beq_iff_eq, Bool.not_eq_true']
  refine ⟨hbp, ?_⟩
  tauto

theorem metadataMismatch_false (m : Fits) (w : Writer) (f : Fits)
    (hc : compat m w) (hs : sameMeta f m) :
    metadataMismatch w (some f) = false := by
  rcases hc with h0 | ⟨hb, h1, h2, h3⟩
  · simp [metadataMismatch, h0]
  · obtain ⟨sb, s1, s2, s3⟩ := hs
    simp [metadataMismatch, hb, h1, h2, h3, sb, s1, s2, s3]

theorem compat_popInit (m : Fits) (w : Writer) (f : Fits)
    (hc : compat m w) (hs : sameMeta f m) :
    compat m (popInit w (some f)) := by
  show compat m (if w.bitpix = 0 then init_images w f else w)
  split
  · obtain ⟨sb, s1, s2, s3⟩ := hs
    exact Or.inr ⟨sb, s1, s2, s3⟩
  · exact hc

theorem findPending_none (ci : Int) :
    ∀ P : List PendingWrite, findPending ci P = none →
      ∀ p ∈ P, p.index ≠ ci := by
  intro P
  induction P with
  | nil => intro _ p hp; cases hp
  | cons t rest ih =>
    intro h p hp
    unfold findPending at h
    by_cases ht : t.index = ci
    · rw [if_pos ht] at h
      cases h
    · rw [if_neg ht] at h
      rw [List.mem_cons] at hp
      rcases hp with rfl | hp
      · exact ht
      · cases hfr : findPending ci rest with
        | none => exact ih hfr p hp
        | some pr =>
          obtain ⟨t', rest'⟩ := pr
          rw [hfr] at h
          simp at h

theorem findPending_some (ci : Int) :
    ∀ (P : List PendingWrite) (t : PendingWrite) (P' : List PendingWrite),
      findPending ci P = some (t, P') →
      t.index = ci ∧ t ∈ P ∧ (∀ p ∈ P', p ∈ P) ∧
        pIdx P' = (pIdx P).erase ci := by
  intro P
  induction P with
  | nil => intro t P' h; cases h
  | cons u rest ih =>
    intro t P' h
    unfold findPending at h
    by_cases hu : u.index = ci
    · rw [if_pos hu] at h
      injection h with h
      injection h with h1 h2
      subst h1; subst h2
      refine ⟨hu, List.mem_cons_self u rest, fun p hp => List.mem_cons_of_mem u hp, ?_⟩
      simp [pIdx, ← hu, List.erase_cons_head]
    · rw [if_neg hu] at h
      cases hfr : findPending ci rest with
      | none =>
        rw [hfr] at h
        simp at h
      | some pr =>
        obtain ⟨t0, rest'⟩ := pr
        rw [hfr] at h
        injection h with h
        injection h with h1 h2
        subst h1; subst h2
        obtain ⟨hti, htm, hsub, heq⟩ := ih t0 rest' hfr
        refine ⟨hti, List.mem_cons_of_mem u htm, ?_, ?_⟩
        · intro p hp
          rw [List.mem_cons] at hp
          rcases hp with rfl | hp
          · exact List.mem_cons_self _ _
          · exact List.mem_cons_of_mem u (hsub p hp)
        · have hune : (u.index == ci) = false := by
            exact beq_eq_false_iff_ne.mpr hu
          simp [pIdx, List.erase_cons, hune] at heq ⊢
          exact heq

/- ----- the claims ----- -/

/-- Claim C3 (amended): on the successful-write, hole-skip, metadata-mismatch
and ordering-violation exit paths of the write worker, the image buffer is
freed (clearfits) whenever present and the memory reservation is released
(notify_data_freed) exactly once; on encode-hook failure the buffer is freed
but the reservation is NOT released. -/
theorem buffer_ownership_per_path (w : Writer) (f : Fits) (idx ci : Int)
    (nw : Nat) (queue : List QueueMsg) (P : List PendingWrite) :
    (StepResult.events (consume w ⟨none, idx⟩ queue P ci nw)).count
        (Event.notifyFreed idx) = 1 ∧
    (StepResult.events (consume w ⟨some f, idx⟩ queue P ci nw)).count
        (Event.clearfits idx) = 1 ∧
    (StepResult.events (consume w ⟨some f, idx⟩ queue P ci nw)).count
        (Event.notifyFreed idx) =
      (if w.writeImageHook f nw = SeqError.writeError then 0 else 1) ∧
    (errorConsumeEvents (some f) idx).count (Event.notifyFreed idx) = 1 ∧
    (errorConsumeEvents (some f) idx).count (Event.clearfits idx) = 1 ∧
    (errorConsumeEvents none idx).count (Event.notifyFreed idx) = 1 := by
  by_cases hr : w.writeImageHook f nw = SeqError.writeError <;>
    simp [consume, StepResult.events, errorConsumeEvents, hr, List.count_cons,
      List.count_nil]

/-- Claim C3 (counterexample): on an encode-hook failure the run ends with
WRITE_ERROR, the buffer is freed, but notify_data_freed is never called, so
the reservation is not released before the worker stops — refuting the
claim's "the reservation is released before the worker stops". -/
theorem encode_failure_no_release_cex :
    write_worker 1 wFail [QueueMsg.task ⟨some fA, 0⟩] [] 0 0 =
      some (Outcome.mk SeqError.writeError 0 1 []
        [Event.hookCall 0 fA 0 SeqError.writeError, Event.clearfits 0]) ∧
    ([Event.hookCall 0 fA 0 SeqError.writeError,
        Event.clearfits 0].count (Event.notifyFreed 0)) = 0 :=
  ⟨rfl, rfl⟩

/-- Claim C4: once the writer's metadata is established (bitpix nonzero), a
popped task whose image differs in geometry, bit depth or channel count under
strict mode (SER output, or FITSEQ output with the heterogeneous switch off)
makes the worker terminate with WRITE_ERROR, and the encode hook is never
invoked for that image (the emitted trace holds no hookCall). -/
theorem metadata_mismatch_write_error (fuel : Nat) (w : Writer) (f : Fits)
    (idx ci : Int) (nw : Nat) (rest : List QueueMsg) (P : List PendingWrite)
    (hbp : w.bitpix ≠ 0)
    (hstrict : w.outputType = SeqOutputType.ser ∨
      (w.outputType = SeqOutputType.fitseq ∧ w.allowHeterogeneousFitseq = false))
    (hdiff : f.naxes0 ≠ w.naxes0 ∨ f.naxes1 ≠ w.naxes1 ∨
      f.naxes2 ≠ w.naxes2 ∨ f.bitpix ≠ w.bitpix)
    (hfp : findPending ci P = none) :
    write_worker (fuel + 1) w (QueueMsg.task ⟨some f, idx⟩ :: rest) P ci nw =
      some (Outcome.mk SeqError.writeError nw w.frameCount P
        [Event.clearfits idx, Event.notifyFreed idx]) ∧
    hookIndices [Event.clearfits idx, Event.notifyFreed idx] = [] := by
  have hmm := metadataMismatch_true w f hbp hstrict hdiff
  refine ⟨?_, by simp [hookIndices]⟩
  simp only [write_worker, step, hfp, popLoop, hmm, if_true, errorConsumeEvents]
  rw [finalize_of_ne_incomplete]
  intro h
  cases h

/-- Claim C4 witness at a concrete mismatching image on a SER writer. -/
theorem metadata_mismatch_write_error_witness :
    wEst.bitpix ≠ 0 ∧ fBad.naxes0 ≠ wEst.naxes0 ∧
    write_worker 1 wEst [QueueMsg.task ⟨some fBad, 0⟩] [] 0 0 =
      some (Outcome.mk SeqError.writeError 0 wEst.frameCount []
        [Event.clearfits 0, Event.notifyFreed 0]) :=
  ⟨by decide, by decide,
   (metadata_mismatch_write_error 0 wEst fBad 0 0 0 [] [] (by decide)
      (Or.inl rfl) (Or.inl (by decide)) rfl).1⟩

/-- Claim C5: a task popped with a nonnegative index strictly below the
cursor makes the worker terminate with WRITE_ERROR; the trace it emits from
that point holds no encode-hook call. -/
theorem below_cursor_write_error (fuel : Nat) (w : Writer) (img : Option Fits)
    (idx ci : Int) (nw : Nat) (rest : List QueueMsg) (P : List PendingWrite)
    (hge : 0 ≤ idx) (hlt : idx < ci)
    (hfp : findPending ci P = none) :
    write_worker (fuel + 1) w (QueueMsg.task ⟨img, idx⟩ :: rest) P ci nw =
      some (Outcome.mk SeqError.writeError nw w.frameCount P
        (errorConsumeEvents img idx)) ∧
    hookIndices (errorConsumeEvents img idx) = [] := by
  refine ⟨?_, hookIndices_errorConsume img idx⟩
  have hne : idx ≠ ci := ne_of_lt hlt
  by_cases hmm : metadataMismatch w img = true
  · simp only [write_worker, step, hfp, popLoop, hmm, if_true]
    rw [finalize_of_ne_incomplete]
    intro h
    cases h
  · have hmm' : metadataMismatch w img = false := by
      exact Bool.not_eq_true _ ▸ Bool.eq_false_iff.mpr hmm
    simp only [write_worker, step, hfp, popLoop, hmm', Bool.false_eq_true,
      if_false, if_pos (And.intro hge hne), if_pos hlt]
    rw [popInit_frameCount, finalize_of_ne_incomplete]
    intro h
    cases h

/-- Claim C5 witness: index 1 popped while the cursor is at 3. -/
theorem below_cursor_write_error_witness :
    (0 : Int) ≤ 1 ∧ (1 : Int) < 3 ∧
    write_worker 1 wBase [QueueMsg.task ⟨some fA, 1⟩] [] 3 3 =
      some (Outcome.mk SeqError.writeError 3 wBase.frameCount []
        (errorConsumeEvents (some fA) 1)) :=
  ⟨by decide, by decide,
   (below_cursor_write_error 0 wBase (some fA) 1 3 3 [] []
      (by decide) (by decide) rfl).1⟩

/-- Claim C6: consuming a nil image for index k (with the cursor at k) causes
no encode-hook call, releases k's memory reservation, decrements the expected
frame count by one, advances the cursor to k+1, and leaves frames-written
unchanged; the worker then continues. -/
theorem hole_skip (w : Writer) (rest : List QueueMsg) (P : List PendingWrite)
    (k : Int) (nw : Nat) (hfp : findPending k P = none) :
    step w (QueueMsg.task ⟨none, k⟩ :: rest) P k nw =
      StepResult.ran SeqError.ok { w with frameCount := w.frameCount - 1 }
        rest P (k + 1) nw [Event.notifyFreed k] := by
  simp [step, hfp, popLoop, metadataMismatch, consume, popInit]

/-- Claim C6 witness at k = 2. -/
theorem hole_skip_witness :
    step wEst [QueueMsg.task ⟨none, 2⟩] [] 2 1 =
      StepResult.ran SeqError.ok { wEst with frameCount := wEst.frameCount - 1 }
        [] [] 3 1 [Event.notifyFreed 2] :=
  hole_skip wEst [] [] 2 1 rfl

/-- Claim C8 (amended): when a termination signal ends the run with an unknown
(nonpositive) expected frame count, the final frame count is set to the
number of frames actually written; the terminal status is OK when the
out-of-order buffer is empty, but remains INCOMPLETE when out-of-order images
are still pending. -/
theorem abort_unknown_count_finalize (fc : Int) (nw : Nat) (tr : List Event)
    (t : PendingWrite) (P : List PendingWrite) (hfc : fc ≤ 0) :
    finalize SeqError.incomplete fc [] nw tr =
      Outcome.mk SeqError.ok nw (nw : Int) [] tr ∧
    finalize SeqError.incomplete fc (t :: P) nw tr =
      Outcome.mk SeqError.incomplete nw (nw : Int) (t :: P) tr := by
  constructor <;> simp [finalize, hfc]

/-- Claim C8 witness: unknown count with 2 frames written. -/
theorem abort_unknown_count_finalize_witness :
    (0 : Int) ≤ 0 ∧
    finalize SeqError.incomplete 0 [] 2 [] =
      Outcome.mk SeqError.ok 2 (2 : Int) [] [] ∧
    finalize SeqError.incomplete 0 [⟨none, 3⟩] 2 [] =
      Outcome.mk SeqError.incomplete 2 (2 : Int) [⟨none, 3⟩] [] := by
  refine ⟨by decide, ?_, ?_⟩
  · exact (abort_unknown_count_finalize 0 2 [] ⟨none, 3⟩ [] (by decide)).1
  · exact (abort_unknown_count_finalize 0 2 [] ⟨none, 3⟩ [] (by decide)).2

/-- Claim C8 (counterexample): with an unknown frame count, an abort that
leaves an out-of-order task in the waiting list ends the run with status
INCOMPLETE, not OK — refuting the unconditional claim. -/
theorem abort_unknown_count_pending_cex :
    write_worker 1 wUnknown [QueueMsg.task ⟨some fA, 1⟩, QueueMsg.abortTask]
        [] 0 0 =
      some (Outcome.mk SeqError.incomplete 0 0 [⟨some fA, 1⟩] []) ∧
    SeqError.incomplete ≠ SeqError.ok :=
  ⟨rfl, by decide⟩

/-- Claim C9: raising the throttle ceiling from a positive old value to a
larger new value performs exactly new − old release calls (each of which
decrements the counter and signals one waiter parked on the condition
variable). -/
theorem reconfigure_release_delta (pool : PoolState) (maxBlocks : Int)
    (hpos : 0 < pool.configuredMaxActiveBlocks)
    (hlt : pool.configuredMaxActiveBlocks < maxBlocks) :
    ((seqwriter_set_max_active_blocks pool maxBlocks).2 : Int) =
      maxBlocks - pool.configuredMaxActiveBlocks := by
  show ((if 0 < pool.configuredMaxActiveBlocks ∧
      pool.configuredMaxActiveBlocks < maxBlocks then
        (maxBlocks - pool.configuredMaxActiveBlocks).toNat
      else 0 : Nat) : Int) = maxBlocks - pool.configuredMaxActiveBlocks
  rw [if_pos (And.intro hpos hlt)]
  exact Int.toNat_of_nonneg (by omega)

/-- Claim C9 witness: ceiling raised from 4 to 7 performs 3 releases. -/
theorem reconfigure_release_delta_witness :
    (0 : Int) < 4 ∧ (4 : Int) < 7 ∧
    ((seqwriter_set_max_active_blocks poolC 7).2 : Int) =
      7 - poolC.configuredMaxActiveBlocks :=
  ⟨by decide, by decide, reconfigure_release_delta poolC 7 (by decide) (by decide)⟩

/-- Claim C10: a popped task with a negative index and a present, compatible
image is consumed immediately as if its index were the cursor: it is not
stored in the waiting list, does not raise the below-cursor error, and on
encode success the cursor and frames-written are both incremented. -/
theorem negative_index_immediate (w : Writer) (f : Fits) (idx ci : Int)
    (nw : Nat) (rest : List QueueMsg) (P : List PendingWrite)
    (hneg : idx < 0) (hfp : findPending ci P = none)
    (hmm : metadataMismatch w (some f) = false)
    (hhook : w.writeImageHook f nw = SeqError.ok) :
    step w (QueueMsg.task ⟨some f, idx⟩ :: rest) P ci nw =
      StepResult.ran SeqError.ok (popInit w (some f)) rest P (ci + 1) (nw + 1)
        [Event.hookCall idx f nw SeqError.ok, Event.clearfits idx,
         Event.notifyFreed idx] := by
  have hcond : ¬(idx ≥ 0 ∧ idx ≠ ci) := fun hc => absurd hc.1 (by omega)
  simp only [step, hfp, popLoop, hmm, Bool.false_eq_true, if_false,
    hcond]
  simp [consume, popInit_hook, hhook]

/-- Claim C10 witness: index -1 consumed at cursor 5 with 2 frames written. -/
theorem negative_index_immediate_witness :
    (-1 : Int) < 0 ∧ metadataMismatch wEst (some fA) = false ∧
    step wEst [QueueMsg.task ⟨some fA, -1⟩] [] 5 2 =
      StepResult.ran SeqError.ok (popInit wEst (some fA)) [] [] 6 3
        [Event.hookCall (-1) fA 2 SeqError.ok, Event.clearfits (-1),
         Event.notifyFreed (-1)] :=
  ⟨by decide, by decide,
   negative_index_immediate wEst fA (-1) 5 2 [] [] (by decide) rfl
     (by decide) rfl⟩

theorem all_outputs_iff (l : List OutputSlot) (index : Int) :
    all_outputs_to_index l index = true ↔
      ∀ o ∈ l, o.seq.isSome = true ∧ index ≤ o.index := by
  simp [all_outputs_to_index, List.all_eq_true, Bool.and_eq_true,
    decide_eq_true_eq]

theorem notify_core (s : Nat) (index : Int) :
    ∀ outs : List OutputSlot,
      (∀ o ∈ outs, o.seq.isSome = true) →
      outs.countP (fun o => o.seq == some s) = 1 →
      ∃ i, get_output_for_seq s outs = (some i, outs) ∧
        (all_outputs_to_index (outs.set i ⟨some s, index⟩) index = true ↔
          ∀ o ∈ outs, o.seq = some s ∨ index ≤ o.index) := by
  intro outs
  induction outs with
  | nil =>
    intro _ hcount
    simp at hcount
  | cons slot rest ih =>
    intro hsome hcount
    have hslot : slot.seq.isSome = true := hsome slot (List.mem_cons_self _ _)
    have hnn : slot.seq ≠ none := by
      intro h
      rw [h] at hslot
      simp at hslot
    by_cases hs : slot.seq = some s
    · have hps : (slot.seq == some s) = true := beq_iff_eq.mpr hs
      have hrest0 : rest.countP (fun o => o.seq == some s) = 0 := by
        rw [List.countP_cons] at hcount
        simp only [hps, if_true] at hcount
        omega
      have hrestne : ∀ o ∈ rest, o.seq ≠ some s := by
        intro o ho hos
        have hno := List.countP_eq_zero.mp hrest0 o ho
        simp [hos] at hno
      refine ⟨0, ?_, ?_⟩
      · unfold get_output_for_seq
        rw [if_neg hnn, if_pos hs]
      · rw [List.set_cons_zero, all_outputs_iff]
        constructor
        · intro hall o ho
          rw [List.mem_cons] at ho
          rcases ho with rfl | ho
          · exact Or.inl hs
          · exact Or.inr (hall o (List.mem_cons_of_mem _ ho)).2
        · intro hall o ho
          rw [List.mem_cons] at ho
          rcases ho with rfl | ho
          · exact ⟨rfl, le_refl index⟩
          · refine ⟨hsome o (List.mem_cons_of_mem _ ho), ?_⟩
            rcases hall o (List.mem_cons_of_mem _ ho) with h | h
            · exact absurd h (hrestne o ho)
            · exact h
    · have hps : (slot.seq == some s) = false := beq_eq_false_iff_ne.mpr hs
      have hcount' : rest.countP (fun o => o.seq == some s) = 1 := by
        rw [List.countP_cons] at hcount
        simp only [hps, Bool.false_eq_true, if_false, if_true, add_zero,
          Nat.add_zero] at hcount
        omega
      obtain ⟨i, hget, hiff⟩ :=
        ih (fun o ho => hsome o (List.mem_cons_of_mem _ ho)) hcount'
      refine ⟨i + 1, ?_, ?_⟩
      · unfold get_output_for_seq
        rw [if_neg hnn, if_neg hs, hget]
      · rw [List.set_cons_succ, all_outputs_iff, List.forall_mem_cons,
          List.forall_mem_cons]
        constructor
        · rintro ⟨⟨_, hle⟩, hrest⟩
          refine ⟨Or.inr hle, ?_⟩
          exact hiff.mp ((all_outputs_iff _ _).mpr hrest)
        · rintro ⟨hhead, hrest⟩
          refine ⟨⟨hslot, ?_⟩, ?_⟩
          · rcases hhead with h | h
            · exact absurd h hs
            · exact h
          · exact (all_outputs_iff _ _).mp (hiff.mpr hrest)

/-- Claim C7: with more than one output configured (each declared slot
registered, the notifying sequence among them), notify_data_freed decrements
the active-block count by exactly one if and only if every registered output
has recorded an index at least as large (the notifying output recording the
given index by this very call); otherwise the count is left unchanged. -/
theorem notify_release_iff (pool : PoolState) (s : Nat) (index : Int)
    (hmulti : 1 < pool.nbOutputs)
    (hreg : ∀ o ∈ pool.outputs, o.seq.isSome = true)
    (huniq : pool.outputs.countP (fun o => o.seq == some s) = 1) :
    ((∀ o ∈ pool.outputs, o.seq = some s ∨ index ≤ o.index) →
      (notify_data_freed pool s index).nbBlocksActive =
        pool.nbBlocksActive - 1) ∧
    ((¬ ∀ o ∈ pool.outputs, o.seq = some s ∨ index ≤ o.index) →
      (notify_data_freed pool s index).nbBlocksActive =
        pool.nbBlocksActive) := by
  obtain ⟨i, hget, hiff⟩ := notify_core s index pool.outputs hreg huniq
  constructor
  · intro h
    have hall : all_outputs_to_index (pool.outputs.set i ⟨some s, index⟩)
        index = true := hiff.mpr h
    simp only [notify_data_freed, if_pos hmulti, hget, hall, if_true]
  · intro h
    have hall : all_outputs_to_index (pool.outputs.set i ⟨some s, index⟩)
        index = false := by
      rw [Bool.eq_false_iff]
      intro hc
      exact h (hiff.mp hc)
    simp only [notify_data_freed, if_pos hmulti, hget, hall,
      Bool.false_eq_true, if_false]

/-- Claim C7 witness: with outputs A (seq 1) and B (seq 2) sharing one pool,
A reporting index 5 while B has recorded 3 releases nothing; B then reporting
index 5 (A having recorded 5) fires exactly one release. -/
theorem notify_release_iff_witness :
    (notify_data_freed poolA 1 5).nbBlocksActive = poolA.nbBlocksActive ∧
    (notify_data_freed poolB 2 5).nbBlocksActive =
      poolB.nbBlocksActive - 1 :=
  ⟨(notify_release_iff poolA 1 5 (by decide) (by decide) (by decide)).2
      (by decide),
   (notify_release_iff poolB 2 5 (by decide) (by decide) (by decide)).1
      (by decide)⟩

theorem popLoop_got_nonneg :
    ∀ (Q : List QueueMsg) (w : Writer) (ci : Int) (P : List PendingWrite)
      (t : PendingWrite) (Q' : List QueueMsg) (P' : List PendingWrite)
      (w' : Writer),
      allIndicesNonneg Q = true →
      popLoop w ci P Q = PopResult.got t Q' P' w' →
      t.index = ci ∧ allIndicesNonneg Q' = true := by
  intro Q
  induction Q with
  | nil =>
    intro w ci P t Q' P' w' _ h
    simp [popLoop] at h
  | cons msg rest ih =>
    intro w ci P t Q' P' w' hQ h
    cases msg with
    | abortTask => simp [popLoop] at h
    | task t0 =>
      unfold allIndicesNonneg at hQ
      rw [List.all_cons, Bool.and_eq_true] at hQ
      obtain ⟨h0, hQrest⟩ := hQ
      have ht0 : (0 : Int) ≤ t0.index := by simpa using h0
      have hQ' : allIndicesNonneg rest = true := hQrest
      unfold popLoop at h
      by_cases hmm : metadataMismatch w t0.image = true
      · rw [if_pos hmm] at h
        simp at h
      · rw [if_neg hmm] at h
        by_cases hcond : t0.index ≥ 0 ∧ t0.index ≠ ci
        · rw [if_pos hcond] at h
          by_cases hlt : t0.index < ci
          · rw [if_pos hlt] at h
            simp at h
          · rw [if_neg hlt] at h
            exact ih (popInit w t0.image) ci (P ++ [t0]) t Q' P' w' hQ' h
        · rw [if_neg hcond] at h
          injection h with h1 h2 h3 h4
          subst h1
          subst h2
          push_neg at hcond
          exact ⟨hcond ht0, hQ'⟩

theorem consume_ran_hooks (w : Writer) (t : PendingWrite) (Q : List QueueMsg)
    (P : List PendingWrite) (ci : Int) (nw : Nat) (rv : SeqError)
    (w' : Writer) (Q' : List QueueMsg) (P' : List PendingWrite) (ci' : Int)
    (nw' : Nat) (ev : List Event) (hti : t.index = ci)
    (h : consume w t Q P ci nw = StepResult.ran rv w' Q' P' ci' nw' ev) :
    Q' = Q ∧ ci ≤ ci' ∧
      (hookIndices ev = [] ∨
        (hookIndices ev = [ci] ∧ (rv = SeqError.ok → ci' = ci + 1))) := by
  obtain ⟨timg, tidx⟩ := t
  have hti' : tidx = ci := hti
  cases timg with
  | none =>
    have h' : StepResult.ran SeqError.ok
        { w with frameCount := w.frameCount - 1 } Q P (ci + 1) nw
        [Event.notifyFreed tidx] = StepResult.ran rv w' Q' P' ci' nw' ev := h
    injection h' with h1 h2 h3 h4 h5 h6 h7
    subst h3
    subst h5
    refine ⟨rfl, by omega, Or.inl ?_⟩
    rw [← h7]
    simp [hookIndices]
  | some f =>
    have h' : (if w.writeImageHook f nw ≠ SeqError.writeError then
          StepResult.ran (w.writeImageHook f nw) w Q P (ci + 1) (nw + 1)
            [Event.hookCall tidx f nw (w.writeImageHook f nw),
             Event.clearfits tidx, Event.notifyFreed tidx]
        else
          StepResult.ran (w.writeImageHook f nw) w Q P ci nw
            [Event.hookCall tidx f nw (w.writeImageHook f nw),
             Event.clearfits tidx]) = StepResult.ran rv w' Q' P' ci' nw' ev := h
    by_cases hr : w.writeImageHook f nw = SeqError.writeError
    · rw [if_neg (not_not_intro hr)] at h'
      injection h' with h1 h2 h3 h4 h5 h6 h7
      subst h3
      subst h5
      have hrv : rv = SeqError.writeError := h1.symm.trans hr
      refine ⟨rfl, le_refl ci, Or.inr ⟨?_, ?_⟩⟩
      · rw [← h7]
        simp [hookIndices, hti']
      · intro hok
        rw [hrv] at hok
        cases hok
    · rw [if_pos hr] at h'
      injection h' with h1 h2 h3 h4 h5 h6 h7
      subst h3
      subst h5
      refine ⟨rfl, by omega, Or.inr ⟨?_, fun _ => rfl⟩⟩
      rw [← h7]
      simp [hookIndices, hti']

theorem consume_ne_done (w : Writer) (t : PendingWrite) (Q : List QueueMsg)
    (P : List PendingWrite) (ci : Int) (nw : Nat) (rv : SeqError)
    (w' : Writer) (P' : List PendingWrite) (nw' : Nat) (ev : List Event) :
    consume w t Q P ci nw ≠ StepResult.done rv w' P' nw' ev := by
  obtain ⟨timg, tidx⟩ := t
  cases timg with
  | none => simp [consume]
  | some f =>
    simp only [consume]
    split <;> simp

theorem step_done_hooks (w : Writer) (Q : List QueueMsg)
    (P : List PendingWrite) (ci : Int) (nw : Nat) (rv : SeqError)
    (w' : Writer) (P' : List PendingWrite) (nw' : Nat) (ev : List Event)
    (h : step w Q P ci nw = StepResult.done rv w' P' nw' ev) :
    hookIndices ev = [] := by
  unfold step at h
  cases hfp : findPending ci P with
  | some tp =>
    obtain ⟨t, P2⟩ := tp
    rw [hfp] at h
    exact absurd h (consume_ne_done w t Q P2 ci nw rv w' P' nw' ev)
  | none =>
    rw [hfp] at h
    cases hpl : popLoop w ci P Q with
    | blocked =>
      rw [hpl] at h
      have h' : StepResult.blocked = StepResult.done rv w' P' nw' ev := h
      simp at h'
    | aborted q0 p0 w0 =>
      rw [hpl] at h
      have h' : StepResult.done SeqError.incomplete w0 p0 nw [] =
          StepResult.done rv w' P' nw' ev := h
      injection h' with h1 h2 h3 h4 h5
      rw [← h5]
      simp [hookIndices]
    | errored img idx q0 p0 w0 =>
      rw [hpl] at h
      have h' : StepResult.done SeqError.writeError w0 p0 nw
          (errorConsumeEvents img idx) = StepResult.done rv w' P' nw' ev := h
      injection h' with h1 h2 h3 h4 h5
      rw [← h5]
      exact hookIndices_errorConsume img idx
    | got t q0 p0 w0 =>
      rw [hpl] at h
      exact absurd h (consume_ne_done w0 t q0 p0 ci nw rv w' P' nw' ev)

theorem step_ran_hooks (w : Writer) (Q : List QueueMsg)
    (P : List PendingWrite) (ci : Int) (nw : Nat) (rv : SeqError)
    (w' : Writer) (Q' : List QueueMsg) (P' : List PendingWrite) (ci' : Int)
    (nw' : Nat) (ev : List Event)
    (hQ : allIndicesNonneg Q = true)
    (h : step w Q P ci nw = StepResult.ran rv w' Q' P' ci' nw' ev) :
    allIndicesNonneg Q' = true ∧ ci ≤ ci' ∧
      (hookIndices ev = [] ∨
        (hookIndices ev = [ci] ∧ (rv = SeqError.ok → ci' = ci + 1))) := by
  unfold step at h
  cases hfp : findPending ci P with
  | some tp =>
    obtain ⟨t, P2⟩ := tp
    rw [hfp] at h
    have h' : consume w t Q P2 ci nw =
        StepResult.ran rv w' Q' P' ci' nw' ev := h
    have hti := (findPending_some ci P t P2 hfp).1
    obtain ⟨hq, hle, hh⟩ := consume_ran_hooks w t Q P2 ci nw rv w' Q' P' ci'
      nw' ev hti h'
    refine ⟨?_, hle, hh⟩
    rw [hq]
    exact hQ
  | none =>
    rw [hfp] at h
    cases hpl : popLoop w ci P Q with
    | blocked =>
      rw [hpl] at h
      have h' : StepResult.blocked = StepResult.ran rv w' Q' P' ci' nw' ev := h
      simp at h'
    | aborted q0 p0 w0 =>
      rw [hpl] at h
      have h' : StepResult.done SeqError.incomplete w0 p0 nw [] =
          StepResult.ran rv w' Q' P' ci' nw' ev := h
      simp at h'
    | errored img idx q0 p0 w0 =>
      rw [hpl] at h
      have h' : StepResult.done SeqError.writeError w0 p0 nw
          (errorConsumeEvents img idx) =
          StepResult.ran rv w' Q' P' ci' nw' ev := h
      simp at h'
    | got t q0 p0 w0 =>
      rw [hpl] at h
      have h' : consume w0 t q0 p0 ci nw =
          StepResult.ran rv w' Q' P' ci' nw' ev := h
      obtain ⟨hti, hq0⟩ := popLoop_got_nonneg Q w ci P t q0 p0 w0 hQ hpl
      obtain ⟨hq, hle, hh⟩ := consume_ran_hooks w0 t q0 p0 ci nw rv w' Q' P'
        ci' nw' ev hti h'
      refine ⟨?_, hle, hh⟩
      rw [hq]
      exact hq0

theorem hook_order_aux :
    ∀ (fuel : Nat) (w : Writer) (Q : List QueueMsg) (P : List PendingWrite)
      (ci : Int) (nw : Nat) (out : Outcome),
      allIndicesNonneg Q = true →
      write_worker fuel w Q P ci nw = some out →
      List.Pairwise (fun a b : Int => a < b) (hookIndices out.trace) ∧
        ∀ i ∈ hookIndices out.trace, ci ≤ i := by
  intro fuel
  induction fuel with
  | zero =>
    intro w Q P ci nw out _ h
    simp [write_worker] at h
  | succ fuel ih =>
    intro w Q P ci nw out hQ hrun
    rw [write_worker] at hrun
    cases hstep : step w Q P ci nw with
    | blocked =>
      rw [hstep] at hrun
      simp at hrun
    | done rv w' P' nw' ev =>
      rw [hstep] at hrun
      have hev := step_done_hooks w Q P ci nw rv w' P' nw' ev hstep
      injection hrun with hrun
      rw [← hrun, finalize_trace, hev]
      simp
    | ran rv w' Q' P' ci' nw' ev =>
      rw [hstep] at hrun
      replace hrun : (if rv = SeqError.ok ∧
          (w'.frameCount ≤ 0 ∨ (nw' : Int) < w'.frameCount) then
            prependTrace ev (write_worker fuel w' Q' P' ci' nw')
          else some (finalize rv w'.frameCount P' nw' ev)) = some out := hrun
      obtain ⟨hQ', hcile, hhooks⟩ := step_ran_hooks w Q P ci nw rv w' Q' P'
        ci' nw' ev hQ hstep
      by_cases hcond : rv = SeqError.ok ∧
          (w'.frameCount ≤ 0 ∨ (nw' : Int) < w'.frameCount)
      · rw [if_pos hcond] at hrun
        obtain ⟨o, ho, rfl⟩ := prependTrace_eq_some ev _ out hrun
        obtain ⟨hpw, hbound⟩ := ih w' Q' P' ci' nw' o hQ' ho
        show List.Pairwise _ (hookIndices (ev ++ o.trace)) ∧
          ∀ i ∈ hookIndices (ev ++ o.trace), ci ≤ i
        rw [hookIndices_append]
        rcases hhooks with hev | ⟨hev, himp⟩
        · rw [hev]
          simp only [List.nil_append]
          exact ⟨hpw, fun i hi => le_trans hcile (hbound i hi)⟩
        · have hci' : ci' = ci + 1 := himp hcond.1
          rw [hev]
          simp only [List.singleton_append]
          constructor
          · rw [List.pairwise_cons]
            refine ⟨?_, hpw⟩
            intro b hb
            have hbb := hbound b hb
            omega
          · intro i hi
            rw [List.mem_cons] at hi
            rcases hi with rfl | hi
            · exact le_refl i
            · have hbb := hbound i hi
              omega
      · rw [if_neg hcond] at hrun
        injection hrun with hrun
        rw [← hrun, finalize_trace]
        rcases hhooks with hev | ⟨hev, _⟩
        · rw [hev]
          simp
        · rw [hev]
          refine ⟨List.pairwise_singleton _ _, ?_⟩
          intro i hi
          rw [List.mem_singleton] at hi
          subst hi
          exact le_refl i

/-- Claim C1: for any run of the write worker on any queue of submissions
with nonnegative indices (any interleaving, including abort signals), the
sequence of encode-hook invocations recorded in the trace occurs in strictly
ascending index order. -/
theorem hook_calls_strictly_ascending (fuel : Nat) (w : Writer)
    (queue : List QueueMsg) (out : Outcome)
    (hq : allIndicesNonneg queue = true)
    (hrun : write_worker fuel w queue [] 0 0 = some out) :
    List.Pairwise (fun a b : Int => a < b) (hookIndices out.trace) :=
  (hook_order_aux fuel w queue [] 0 0 out hq hrun).1

/-- Claim C1 witness: frames submitted in the order 1, 0 are encoded at
strictly ascending indices 0, 1. -/
theorem hook_calls_strictly_ascending_witness :
    allIndicesNonneg
        [QueueMsg.task ⟨some fA, 1⟩, QueueMsg.task ⟨some fB, 0⟩] = true ∧
    List.Pairwise (fun a b : Int => a < b)
      (hookIndices (Outcome.mk SeqError.ok 2 2 []
        [Event.hookCall 0 fB 0 SeqError.ok, Event.clearfits 0,
         Event.notifyFreed 0, Event.hookCall 1 fA 1 SeqError.ok,
         Event.clearfits 1, Event.notifyFreed 1]).trace) :=
  ⟨by decide,
   hook_calls_strictly_ascending 4 wBase
     [QueueMsg.task ⟨some fA, 1⟩, QueueMsg.task ⟨some fB, 0⟩]
     (Outcome.mk SeqError.ok 2 2 []
       [Event.hookCall 0 fB 0 SeqError.ok, Event.clearfits 0,
        Event.notifyFreed 0, Event.hookCall 1 fA 1 SeqError.ok,
        Event.clearfits 1, Event.notifyFreed 1])
     (by decide) (by decide)⟩

theorem write_worker_ran (fuel : Nat) (w : Writer) (Q : List QueueMsg)
    (P : List PendingWrite) (ci : Int) (nw : Nat) (rv : SeqError)
    (w' : Writer) (Q' : List QueueMsg) (P' : List PendingWrite) (ci' : Int)
    (nw' : Nat) (ev : List Event)
    (hstep : step w Q P ci nw = StepResult.ran rv w' Q' P' ci' nw' ev) :
    write_worker (fuel + 1) w Q P ci nw =
      if rv = SeqError.ok ∧ (w'.frameCount ≤ 0 ∨ (nw' : Int) < w'.frameCount)
      then prependTrace ev (write_worker fuel w' Q' P' ci' nw')
      else some (finalize rv w'.frameCount P' nw' ev) := by
  rw [write_worker, hstep]

theorem qIdx_cons_task (t : PendingWrite) (Q : List QueueMsg) :
    qIdx (QueueMsg.task t :: Q) = t.index :: qIdx Q := by
  simp [qIdx]

theorem mem_intsFrom : ∀ (len c : Nat) (x : Int),
    x ∈ intsFrom c len → (c : Int) ≤ x := by
  intro len
  induction len with
  | zero =>
    intro c x hx
    simp [intsFrom] at hx
  | succ n ih =>
    intro c x hx
    have hx' : x ∈ ((c : Int) :: intsFrom (c + 1) n) := hx
    rcases List.mem_cons.mp hx' with rfl | hx2
    · exact le_refl _
    · have h2 := ih (c + 1) x hx2
      have h3 : ((c + 1 : Nat) : Int) = (c : Int) + 1 := by push_cast; ring
      omega

theorem qIdx_submissionList : ∀ (imgs : List Fits) (s : Nat),
    qIdx (submissionList imgs s) = intsFrom s imgs.length := by
  intro imgs
  induction imgs with
  | nil =>
    intro s
    simp [submissionList, qIdx, intsFrom]
  | cons f rest ih =>
    intro s
    show qIdx (QueueMsg.task ⟨some f, (s : Int)⟩ :: submissionList rest (s + 1))
      = intsFrom s (rest.length + 1)
    rw [qIdx_cons_task, ih (s + 1)]
    rfl

theorem submissionList_mem (m : Fits) : ∀ (imgs : List Fits) (s : Nat),
    (∀ f ∈ imgs, sameMeta f m) →
    ∀ msg ∈ submissionList imgs s, taskOk m msg := by
  intro imgs
  induction imgs with
  | nil =>
    intro s _ msg hm
    simp [submissionList] at hm
  | cons f rest ih =>
    intro s hmeta msg hm
    have hm' : msg ∈ QueueMsg.task ⟨some f, (s : Int)⟩ ::
        submissionList rest (s + 1) := hm
    rcases List.mem_cons.mp hm' with rfl | hm2
    · exact ⟨f, (s : Int), rfl, hmeta f (List.mem_cons_self _ _)⟩
    · exact ih (s + 1) (fun g hg => hmeta g (List.mem_cons_of_mem _ hg)) msg hm2

theorem popLoop_finds (m : Fits) :
    ∀ (Q : List QueueMsg) (w : Writer) (ci : Int) (P : List PendingWrite),
      compat m w → 0 ≤ ci →
      (∀ msg ∈ Q, taskOk m msg) →
      (∀ i ∈ qIdx Q, ci ≤ i) →
      ci ∈ qIdx Q →
      (∀ p ∈ P, p.image.isSome = true) →
      ∃ f Q' P' w',
        popLoop w ci P Q = PopResult.got ⟨some f, ci⟩ Q' P' w' ∧
        sameMeta f m ∧ compat m w' ∧
        w'.writeImageHook = w.writeImageHook ∧
        w'.frameCount = w.frameCount ∧
        (∀ msg ∈ Q', taskOk m msg) ∧
        (∀ p ∈ P', p.image.isSome = true) ∧
        pIdx P' ++ qIdx Q' = pIdx P ++ (qIdx Q).erase ci := by
  intro Q
  induction Q with
  | nil =>
    intro w ci P _ _ _ _ hciQ _
    simp [qIdx] at hciQ
  | cons msg rest ih =>
    intro w ci P hcompat hci0 hQ hbound hciQ hP
    obtain ⟨f0, idx0, rfl, hsm0⟩ := hQ msg (List.mem_cons_self _ _)
    have hmm : metadataMismatch w (some f0) = false :=
      metadataMismatch_false m w f0 hcompat hsm0
    have hqc : qIdx (QueueMsg.task ⟨some f0, idx0⟩ :: rest) =
        idx0 :: qIdx rest := by
      simp [qIdx]
    by_cases hidx : idx0 = ci
    · subst hidx
      refine ⟨f0, rest, P, popInit w (some f0), ?_, hsm0,
        compat_popInit m w f0 hcompat hsm0, popInit_hook w (some f0),
        popInit_frameCount w (some f0),
        fun msg2 hm2 => hQ msg2 (List.mem_cons_of_mem _ hm2), hP, ?_⟩
      · show (if metadataMismatch w (some f0) = true then
            PopResult.errored (some f0) idx0 rest P w
          else
            if idx0 ≥ 0 ∧ idx0 ≠ idx0 then
              if idx0 < idx0 then
                PopResult.errored (some f0) idx0 rest P (popInit w (some f0))
              else popLoop (popInit w (some f0)) idx0
                (P ++ [⟨some f0, idx0⟩]) rest
            else PopResult.got ⟨some f0, idx0⟩ rest P (popInit w (some f0)))
          = PopResult.got ⟨some f0, idx0⟩ rest P (popInit w (some f0))
        rw [if_neg (by simp [hmm]), if_neg (by simp)]
      · rw [hqc, List.erase_cons_head]
    · have hb0 : ci ≤ idx0 := by
        refine hbound idx0 ?_
        rw [hqc]
        exact List.mem_cons_self _ _
      have hge : idx0 ≥ 0 := le_trans hci0 hb0
      have hnlt : ¬ idx0 < ci := not_lt.mpr hb0
      have hciQ' : ci ∈ qIdx rest := by
        rw [hqc] at hciQ
        rcases List.mem_cons.mp hciQ with h | h
        · exact absurd h.symm hidx
        · exact h
      obtain ⟨f, Q', P', w₂, hpl, hsm, hcomp₂, hhook₂, hfc₂, hQ', hP', heq⟩ :=
        ih (popInit w (some f0)) ci (P ++ [⟨some f0, idx0⟩])
          (compat_popInit m w f0 hcompat hsm0) hci0
          (fun msg2 hm2 => hQ msg2 (List.mem_cons_of_mem _ hm2))
          (fun i hi => hbound i (by rw [hqc]; exact List.mem_cons_of_mem _ hi))
          hciQ'
          (by
            intro p hp
            rcases List.mem_append.mp hp with hp | hp
            · exact hP p hp
            · rw [List.mem_singleton] at hp
              subst hp
              rfl)
      refine ⟨f, Q', P', w₂, ?_, hsm, hcomp₂, ?_, ?_, hQ', hP', ?_⟩
      · show (if metadataMismatch w (some f0) = true then
            PopResult.errored (some f0) idx0 rest P w
          else
            if idx0 ≥ 0 ∧ idx0 ≠ ci then
              if idx0 < ci then
                PopResult.errored (some f0) idx0 rest P (popInit w (some f0))
              else popLoop (popInit w (some f0)) ci
                (P ++ [⟨some f0, idx0⟩]) rest
            else PopResult.got ⟨some f0, idx0⟩ rest P (popInit w (some f0)))
          = PopResult.got ⟨some f, ci⟩ Q' P' w₂
        rw [if_neg (by simp [hmm]), if_pos (And.intro hge hidx),
          if_neg hnlt]
        exact hpl
      · rw [hhook₂, popInit_hook]
      · rw [hfc₂, popInit_frameCount]
      · rw [heq, hqc]
        have hbne : idx0 ≠ ci := hidx
        rw [List.erase_cons_tail (by simpa using hbne)]
        simp [pIdx]

theorem completeness_aux (m : Fits) (N : Nat) (hN : 0 < N) :
    ∀ (fuel c : Nat) (w : Writer) (Q : List QueueMsg) (P : List PendingWrite),
      c < N → N - c ≤ fuel →
      (∀ f n, w.writeImageHook f n = SeqError.ok) →
      compat m w →
      w.frameCount = (N : Int) →
      (∀ msg ∈ Q, taskOk m msg) →
      (∀ p ∈ P, p.image.isSome = true) →
      (pIdx P ++ qIdx Q).Perm (intsFrom c (N - c)) →
      resultStatus (write_worker fuel w Q P (c : Int) c) =
        some (SeqError.ok, N) := by
  intro fuel
  induction fuel with
  | zero =>
    intro c w Q P hc hfuel _ _ _ _ _ _
    omega
  | succ fuel ih =>
    intro c w Q P hc hfuel hhook hcompat hfc hQ hP hperm
    have hlen : N - c = (N - (c + 1)) + 1 := by omega
    have hpermc : (pIdx P ++ qIdx Q).Perm
        ((c : Int) :: intsFrom (c + 1) (N - (c + 1))) := by
      rw [hlen] at hperm
      exact hperm
    have hcast : ((c + 1 : Nat) : Int) = (c : Int) + 1 := by push_cast; ring
    cases hfp : findPending (c : Int) P with
    | some tp =>
      obtain ⟨t, P2⟩ := tp
      obtain ⟨hti, htm, hsub, hPeq⟩ := findPending_some (c : Int) P t P2 hfp
      obtain ⟨f, hf⟩ := Option.isSome_iff_exists.mp (hP t htm)
      have hr : w.writeImageHook f c = SeqError.ok := hhook f c
      have hstep : step w Q P (c : Int) c =
          StepResult.ran SeqError.ok w Q P2 ((c : Int) + 1) (c + 1)
            [Event.hookCall (c : Int) f c SeqError.ok,
             Event.clearfits (c : Int), Event.notifyFreed (c : Int)] := by
        unfold step
        rw [hfp]
        obtain ⟨timg, tidx⟩ := t
        have htidx : tidx = (c : Int) := hti
        subst htidx
        have hfi : timg = some f := hf
        subst hfi
        show (if w.writeImageHook f c ≠ SeqError.writeError then
            StepResult.ran (w.writeImageHook f c) w Q P2 ((c : Int) + 1)
              (c + 1)
              [Event.hookCall (c : Int) f c (w.writeImageHook f c),
               Event.clearfits (c : Int), Event.notifyFreed (c : Int)]
          else
            StepResult.ran (w.writeImageHook f c) w Q P2 (c : Int) c
              [Event.hookCall (c : Int) f c (w.writeImageHook f c),
               Event.clearfits (c : Int)]) = _
        rw [hr]
        simp
      rw [write_worker_ran fuel w Q P (c : Int) c _ _ _ _ _ _ _ hstep]
      by_cases hdone : c + 1 = N
      · have hcond : ¬(SeqError.ok = SeqError.ok ∧
            (w.frameCount ≤ 0 ∨ ((c + 1 : Nat) : Int) < w.frameCount)) := by
          rw [hfc]
          rintro ⟨-, h2 | h2⟩
          · have h3 : (0 : Int) < (N : Int) := by exact_mod_cast hN
            omega
          · have h3 : c + 1 < N := by exact_mod_cast h2
            omega
        rw [if_neg hcond,
          finalize_of_ne_incomplete _ _ _ _ _ (by intro h2; cases h2)]
        show some (SeqError.ok, c + 1) = some (SeqError.ok, N)
        rw [hdone]
      · have hc1 : c + 1 < N := by omega
        have hcond : SeqError.ok = SeqError.ok ∧
            (w.frameCount ≤ 0 ∨ ((c + 1 : Nat) : Int) < w.frameCount) := by
          refine ⟨rfl, Or.inr ?_⟩
          rw [hfc]
          exact_mod_cast hc1
        rw [if_pos hcond, resultStatus_prependTrace]
        have hcP : (c : Int) ∈ pIdx P := List.mem_map.mpr ⟨t, htm, hti⟩
        have hperm' : (pIdx P2 ++ qIdx Q).Perm
            (intsFrom (c + 1) (N - (c + 1))) := by
          have e1 : pIdx P2 ++ qIdx Q = (pIdx P ++ qIdx Q).erase (c : Int) := by
            rw [hPeq]
            exact (List.erase_append_left _ hcP).symm
          have e2 := hpermc.erase (c : Int)
          have e3 : (((c : Int) :: intsFrom (c + 1) (N - (c + 1)))).erase
              (c : Int) = intsFrom (c + 1) (N - (c + 1)) :=
            List.erase_cons_head _ _
          rw [e1, ← e3]
          exact e2
        have hres := ih (c + 1) w Q P2 hc1 (by omega) hhook hcompat hfc hQ
          (fun p hp => hP p (hsub p hp)) hperm'
        rw [← hcast]
        exact hres
    | none =>
      have hnp : ∀ p ∈ P, p.index ≠ (c : Int) := findPending_none (c : Int) P hfp
      have hcP : (c : Int) ∉ pIdx P := by
        intro hc'
        obtain ⟨p, hpm, hpi⟩ := List.mem_map.mp hc'
        exact hnp p hpm hpi
      have hcmem : (c : Int) ∈ pIdx P ++ qIdx Q :=
        hpermc.mem_iff.mpr (List.mem_cons_self _ _)
      have hcQ : (c : Int) ∈ qIdx Q := by
        rcases List.mem_append.mp hcmem with h | h
        · exact absurd h hcP
        · exact h
      have hbound : ∀ i ∈ qIdx Q, (c : Int) ≤ i := by
        intro i hi
        have hmem : i ∈ pIdx P ++ qIdx Q := List.mem_append.mpr (Or.inr hi)
        have hmem2 := hpermc.mem_iff.mp hmem
        rcases List.mem_cons.mp hmem2 with rfl | hi2
        · exact le_refl _
        · have h2 := mem_intsFrom _ _ _ hi2
          omega
      obtain ⟨f, Q', P', w₂, hpl, hsm, hcomp₂, hhook₂, hfc₂, hQ', hP', heq⟩ :=
        popLoop_finds m Q w (c : Int) P hcompat (by exact_mod_cast Nat.zero_le c)
          hQ hbound hcQ hP
      have hr : w₂.writeImageHook f c = SeqError.ok := by
        rw [hhook₂]
        exact hhook f c
      have hstep : step w Q P (c : Int) c =
          StepResult.ran SeqError.ok w₂ Q' P' ((c : Int) + 1) (c + 1)
            [Event.hookCall (c : Int) f c SeqError.ok,
             Event.clearfits (c : Int), Event.notifyFreed (c : Int)] := by
        unfold step
        rw [hfp, hpl]
        show (if w₂.writeImageHook f c ≠ SeqError.writeError then
            StepResult.ran (w₂.writeImageHook f c) w₂ Q' P' ((c : Int) + 1)
              (c + 1)
              [Event.hookCall (c : Int) f c (w₂.writeImageHook f c),
               Event.clearfits (c : Int), Event.notifyFreed (c : Int)]
          else
            StepResult.ran (w₂.writeImageHook f c) w₂ Q' P' (c : Int) c
              [Event.hookCall (c : Int) f c (w₂.writeImageHook f c),
               Event.clearfits (c : Int)]) = _
        rw [hr]
        simp
      rw [write_worker_ran fuel w Q P (c : Int) c _ _ _ _ _ _ _ hstep]
      by_cases hdone : c + 1 = N
      · have hcond : ¬(SeqError.ok = SeqError.ok ∧
            (w₂.frameCount ≤ 0 ∨ ((c + 1 : Nat) : Int) < w₂.frameCount)) := by
          rw [hfc₂, hfc]
          rintro ⟨-, h2 | h2⟩
          · have h3 : (0 : Int) < (N : Int) := by exact_mod_cast hN
            omega
          · have h3 : c + 1 < N := by exact_mod_cast h2
            omega
        rw [if_neg hcond,
          finalize_of_ne_incomplete _ _ _ _ _ (by intro h2; cases h2)]
        show some (SeqError.ok, c + 1) = some (SeqError.ok, N)
        rw [hdone]
      · have hc1 : c + 1 < N := by omega
        have hcond : SeqError.ok = SeqError.ok ∧
            (w₂.frameCount ≤ 0 ∨ ((c + 1 : Nat) : Int) < w₂.frameCount) := by
          refine ⟨rfl, Or.inr ?_⟩
          rw [hfc₂, hfc]
          exact_mod_cast hc1
        rw [if_pos hcond, resultStatus_prependTrace]
        have hperm' : (pIdx P' ++ qIdx Q').Perm
            (intsFrom (c + 1) (N - (c + 1))) := by
          have e1 : pIdx P' ++ qIdx Q' = (pIdx P ++ qIdx Q).erase (c : Int) := by
            rw [heq]
            exact (List.erase_append_right _ hcP).symm
          have e2 := hpermc.erase (c : Int)
          have e3 : (((c : Int) :: intsFrom (c + 1) (N - (c + 1)))).erase
              (c : Int) = intsFrom (c + 1) (N - (c + 1)) :=
            List.erase_cons_head _ _
          rw [e1, ← e3]
          exact e2
        have hhook' : ∀ g n, w₂.writeImageHook g n = SeqError.ok := by
          intro g n
          rw [hhook₂]
          exact hhook g n
        have hfc' : w₂.frameCount = (N : Int) := by rw [hfc₂, hfc]
        have hres := ih (c + 1) w₂ Q' P' hc1 (by omega) hhook' hcomp₂ hfc' hQ'
          hP' hperm'
        rw [← hcast]
        exact hres

/-- Claim C2: for every expected frame count N > 0 given at start, if the
queue holds (in any order) exactly one task per index 0..N-1, each with a
present image of a common metadata, and every encode-hook call succeeds, the
write worker terminates with status OK and frames-written equal to N. -/
theorem completeness_reports_ok (m : Fits) (imgs : List Fits) (N fuel : Nat)
    (w : Writer) (queue : List QueueMsg)
    (hN : 0 < N) (hlen : imgs.length = N) (hfuel : N ≤ fuel)
    (hhook : ∀ f n, w.writeImageHook f n = SeqError.ok)
    (hmeta : ∀ f ∈ imgs, sameMeta f m)
    (hperm : queue.Perm (submissionList imgs 0)) :
    resultStatus (write_worker fuel (start_writer w (N : Int)) queue [] 0 0) =
      some (SeqError.ok, N) := by
  have hq : (qIdx queue).Perm (intsFrom 0 N) := by
    have h1 : (qIdx queue).Perm (qIdx (submissionList imgs 0)) :=
      hperm.filterMap _
    rw [qIdx_submissionList imgs 0, hlen] at h1
    exact h1
  exact completeness_aux m N hN fuel 0 (start_writer w (N : Int)) queue []
    hN (by omega) hhook (Or.inl rfl) rfl
    (fun msg hm => submissionList_mem m imgs 0 hmeta msg (hperm.subset hm))
    (by intro p hp; cases hp)
    (by simpa using hq)

/-- Claim C2 witness: two frames submitted out of order with a succeeding
hook give OK with 2 frames written. -/
theorem completeness_reports_ok_witness :
    0 < 2 ∧
    List.Perm [QueueMsg.task ⟨some fA, 1⟩, QueueMsg.task ⟨some fB, 0⟩]
      (submissionList [fB, fA] 0) ∧
    resultStatus (write_worker 2 (start_writer wBase (2 : Int))
      [QueueMsg.task ⟨some fA, 1⟩, QueueMsg.task ⟨some fB, 0⟩] [] 0 0) =
      some (SeqError.ok, 2) :=
  ⟨by decide, by decide,
   completeness_reports_ok fA [fB, fA] 2 2 wBase
     [QueueMsg.task ⟨some fA, 1⟩, QueueMsg.task ⟨some fB, 0⟩]
     (by decide) (by decide) (by decide) (fun _ _ => rfl) (by decide)
     (by decide)⟩

end Seqwriter
